import Mathlib

/-!
Shallow embedding of `src/bin/lsr.rs` (the `lsr` directory-tree listing tool).

Modelling conventions, stated once here:

* The filesystem is modelled by the inductive type `Node`.  A `Node` records
  everything the program can observe about a path: whether it is a directory,
  the result of a `metadata()` call (`Except String Nat`, the `Nat` being
  `metadata.len()`), the result of `read_dir` (either an error string or the
  list of child slots), and the entry's file name as yielded by
  `Path::file_name()` / `OsStr::to_str()`.  A name is `Option String`:
  `some s` is a valid-UTF-8 name, `none` a name that is not valid UTF-8
  (so `to_str()` returns `None` on it).  An enumeration slot whose `DirEntry`
  itself was an `Err` (dropped by the `.filter(|r| r.is_ok())` step) is the
  constructor `Node.enumFail`.
* Machine integers: `u64` byte counts become `Nat`; the `i8` depth becomes
  `Int`.  `main` clamps the initial depth into `[0, 127]` and `lsr` only
  decrements it down to the `-1` sentinel, so on every reachable call the
  `i8` arithmetic coincides with `Int` arithmetic (no wrap can occur).
* `println!` becomes the accumulation of a `List Line`; a `Line` keeps the
  indent, branch symbol and name structured, and `Line.render` produces the
  exact printed text.  Terminal styling (`.dimmed()` / `.normal()` from the
  `colored` crate) adds no characters when output is not a terminal and is
  dropped from the model; the `if depth == 0 { .normal() } else { .dimmed() }`
  choice at the directory print site affects styling only.
* `Result<u64, String>` becomes `LsrRes`: `ok total`, `error msg`, or
  `panic` for an `unwrap` failure (which in Rust aborts the process and is
  never caught by the `if let Err` in the parent frame).
* The Rust loop recurses into a child directory in the middle of the loop;
  the model precomputes every child's recursive result in `lsrChildren`
  (pairing each child with its result) and then filters and folds the pairs.
  Both computations are pure, results of filtered-out or never-reached
  children are simply unused, so the observable output/result is identical;
  this shape makes the recursion structural.
* `entry.path()` display strings (used only in the "is not a directory"
  message) are modelled as `parent ++ "/" ++ name`, with `displayName`
  standing for the lossy display of a non-UTF-8 name.
* `beautify_bytes` does `bytes as f64` and divides by powers of 1024; for
  `bytes < 2^53` the conversion and the divisions are exact in `f64`, and
  `{:.2}` rounds the exact value to two decimals (ties to even), so the model
  computes the same digits with exact integer arithmetic (`round2`).  The
  unit thresholds compare against 2^10, 2^20, 2^30, all far below 2^53, so
  unit selection agrees with the `f64` comparisons for every `u64` input.
* `s.starts_with(".")` on a one-character pattern is exactly "the first
  character is `'.'`", which is `starts_with_dot` below.
-/

/-! ## Formatter: `get_symbol` (src/bin/lsr.rs lines 28-46) -/

/-- Rust `get_symbol(i, length, indent)` from src/bin/lsr.rs: picks the tree-branch
glyph from the position `i` among `length` siblings at a given `indent`. -/
def get_symbol (i length indent : Nat) : String :=
  if i = 0 then
    if length = 1 then
      if indent ≠ 0 then "╰" else "─"
    else
      if indent ≠ 0 then "├" else "╭"
  else if i = length - 1 then "╰"
  else "├"

/-! ## Formatter: `beautify_bytes` (src/bin/lsr.rs lines 6-8, 48-60) -/

/-- Nearest integer to `num / den` with ties to even, the rounding `{:.2}`
applies to the (exact, see the header) quotient scaled by 100. -/
def round2 (num den : Nat) : Nat :=
  let q := num / den
  let r := num % den
  if 2 * r < den then q
  else if 2 * r > den then q + 1
  else if q % 2 = 0 then q else q + 1

/-- Two-digit zero-padded fractional part. -/
def pad2 (n : Nat) : String :=
  if n < 10 then "0" ++ toString n else toString n

/-- Rust `format!("{:.2}", bytes as f64 / unit as f64)`: integer part, a dot, and
two fractional digits of the quotient rounded to two decimals. -/
def fmt2 (bytes unit : Nat) : String :=
  let v := round2 (bytes * 100) unit
  toString (v / 100) ++ "." ++ pad2 (v % 100)

/-- Rust `beautify_bytes(bytes)` from src/bin/lsr.rs: human-readable size with
1024-based unit thresholds (`BYTES_IN_KB/MB/GB`). -/
def beautify_bytes (bytes : Nat) : String :=
  if bytes < 1024 then toString bytes ++ "B"
  else if bytes < 1048576 then fmt2 bytes 1024 ++ "KB"
  else if bytes < 1073741824 then fmt2 bytes 1048576 ++ "MB"
  else fmt2 bytes 1073741824 ++ "GB"

/-! ## Filesystem model -/

/-- One observable filesystem node, as described in the file header.
`meta` is the result of `path.metadata()` (its `Nat` is `len()`),
`name` the entry's file name (`none` = not valid UTF-8). -/
inductive Node : Type where
  /-- a `read_dir` slot whose `DirEntry` was an `Err` -/
  | enumFail : Node
  /-- a non-directory entry (`is_dir()` is false) -/
  | file (name : Option String) (meta : Except String Nat) : Node
  /-- a directory for which `read_dir` fails with the given message -/
  | dirErr (name : Option String) (meta : Except String Nat) (msg : String) : Node
  /-- a directory whose `read_dir` yields the given slots in order -/
  | dirOk (name : Option String) (meta : Except String Nat) (children : List Node) : Node

/-- Rust `r.is_ok()` for a `read_dir` slot. -/
def slotOk : Node → Bool
  | .enumFail => false
  | _ => true

/-- Rust `path.file_name().to_str()`: the entry's name if it is valid UTF-8.
`Path::file_name()` itself is always `Some` for a `read_dir` entry (the path
is the parent joined with a nonempty name), which is why `file_name` needs no
`Option` layer of its own here. -/
def nameStr : Node → Option String
  | .enumFail => none
  | .file n _ => n
  | .dirErr n _ _ => n
  | .dirOk n _ _ => n

/-- Rust `path.metadata()` result for the node; `enumFail` slots are dropped
before any metadata call, the value here is never reached. -/
def metaOf : Node → Except String Nat
  | .enumFail => .error "unreachable"
  | .file _ m => m
  | .dirErr _ m _ => m
  | .dirOk _ m _ => m

/-- Rust `path.is_dir()`. -/
def isDir : Node → Bool
  | .dirErr _ _ _ => true
  | .dirOk _ _ _ => true
  | _ => false

/-- Rust `s.starts_with(".")`: the first character is a dot. -/
def starts_with_dot (s : String) : Bool :=
  match s.data with
  | [] => false
  | c :: _ => c = '.'

/-- The hidden-file filter predicate from src/bin/lsr.rs lines 76-81:
`r.path().file_name().is_some_and(|name| !name.to_str().is_some_and(|s| s.starts_with("."))) || cli.all`
(with `file_name()` always `Some`, see `nameStr`). -/
def keepEntry (all : Bool) (e : Node) : Bool :=
  (match nameStr e with
   | some s => !(starts_with_dot s)
   | none => true) || all

/-- The filtered entry list of a directory: `read_dir` slots with the `Err`
slots dropped (lines 74-75) and the hidden-file filter applied (76-81). -/
def filteredEntries (all : Bool) (children : List Node) : List Node :=
  (children.filter slotOk).filter (keepEntry all)

/-! ## Output lines -/

/-- One `println!` of the traversal, kept structured; `Line.render` is the
printed text. -/
inductive Line : Type where
  /-- line 109: `println!("{}/", ...)` for a directory entry -/
  | dirLine (indent : Nat) (sym : String) (name : String) : Line
  /-- line 114: `println!("{}  {}", name, beautify_bytes(bytes))` -/
  | fileLine (indent : Nat) (sym : String) (name : String) (bytes : Nat) : Line
  /-- line 111: the caught-child-error line; `indent` is the value
  `indent + 1` used at the print site -/
  | errLine (indent : Nat) (msg : String) : Line
  deriving DecidableEq

/-- Rust `" ".repeat(n)`. -/
def spaces (n : Nat) : String := String.mk (List.replicate n ' ')

/-- The exact text printed for a line (styling escapes dropped, header note). -/
def Line.render : Line → String
  | .dirLine ind sym nm => spaces (ind * 2) ++ sym ++ " " ++ nm ++ "/"
  | .fileLine ind sym nm b => spaces (ind * 2) ++ sym ++ " " ++ nm ++ "  " ++ beautify_bytes b
  | .errLine ind msg => spaces (ind * 2) ++ "╰ " ++ msg

/-- The indent-level field of a line (in 2-space units, as printed). -/
def lineIndent : Line → Nat
  | .dirLine ind _ _ => ind
  | .fileLine ind _ _ _ => ind
  | .errLine ind _ => ind

/-- The entry name a line shows, if it is an entry line. -/
def lineEntryName : Line → Option String
  | .dirLine _ _ nm => some nm
  | .fileLine _ _ nm _ => some nm
  | .errLine _ _ => none

/-! ## The traversal -/

/-- Result of one `lsr` call: `Ok(total)`, `Err(msg)`, or a `panic!` from a
failed `unwrap` (which aborts the process, it is not a `Result`). -/
inductive LsrRes : Type where
  | ok (total : Nat) : LsrRes
  | error (msg : String) : LsrRes
  | panic : LsrRes
  deriving DecidableEq

/-- The `for (i, entry) in dir.iter().enumerate()` loop of `lsr`
(src/bin/lsr.rs lines 88-116), over entries pre-paired with their recursive
call's (output, result).  `length` is `dir.len()`, `i` the position, `acc`
the running `total_bytes`. -/
def lsrLoop (indent : Nat) (length : Nat) :
    List (Node × (List Line × LsrRes)) → Nat → Nat → List Line × LsrRes
  | [], _, acc => ([], .ok acc)
  | (e, (cout, cres)) :: rest, i, acc =>
    match metaOf e with
    | .error msg => ([], .error msg)
    | .ok bytes =>
      match nameStr e with
      | none => ([], .panic)
      | some nm =>
        if isDir e then
          let head := Line.dirLine indent (get_symbol i length indent) nm
          match cres with
          | .panic => (head :: cout, .panic)
          | .error m =>
            let t := lsrLoop indent length rest (i + 1) (acc + bytes)
            (head :: (cout ++ Line.errLine (indent + 1) m :: t.1), t.2)
          | .ok _ =>
            let t := lsrLoop indent length rest (i + 1) (acc + bytes)
            (head :: (cout ++ t.1), t.2)
        else
          let t := lsrLoop indent length rest (i + 1) (acc + bytes)
          (Line.fileLine indent (get_symbol i length indent) nm bytes :: t.1, t.2)

/-- Display of a child path's final component (`Path::display()` is lossy on
non-UTF-8 names). -/
def displayName (e : Node) : String :=
  match nameStr e with
  | some s => s
  | none => "�"

mutual

/-- Rust `lsr(path, depth, indent, cli)` from src/bin/lsr.rs lines 62-119.
Returns the printed lines and the `Result` (or panic).  See the header for
why children's recursive results are precomputed by `lsrChildren`. -/
def lsr (path : String) (node : Node) (depth : Int) (indent : Nat) (all : Bool) :
    List Line × LsrRes :=
  match node with
  | .enumFail => ([], .error (path ++ " is not a directory"))
  | .file _ _ => ([], .error (path ++ " is not a directory"))
  | .dirErr _ _ msg =>
    if depth = -1 then ([], .ok 0) else ([], .error msg)
  | .dirOk _ _ children =>
    if depth = -1 then ([], .ok 0)
    else
      let pre := lsrChildren path children (depth - 1) (indent + 1) all
      let entries := (pre.filter (fun p => slotOk p.1)).filter (fun p => keepEntry all p.1)
      lsrLoop indent entries.length entries 0 0
  termination_by structural node

/-- Pair each `read_dir` slot with the result of the recursive `lsr` call
the loop would make into it (line 110). -/
def lsrChildren (path : String) (ns : List Node) (depth : Int) (indent : Nat) (all : Bool) :
    List (Node × (List Line × LsrRes)) :=
  match ns with
  | [] => []
  | c :: cs =>
    (c, lsr (path ++ "/" ++ displayName c) c depth indent all) :: lsrChildren path cs depth indent all
  termination_by structural ns

end

/-! ## `main` (src/bin/lsr.rs lines 121-143) -/

/-- Outcome of a full run: exit with the given stdout lines, stderr lines and
success flag (`ExitCode::SUCCESS` = 0, `ExitCode::FAILURE` ≠ 0), or a panic
abort. -/
inductive MainOutcome : Type where
  | exit (stdout : List Line) (stderr : List String) (success : Bool) : MainOutcome
  | panicked (stdout : List Line) : MainOutcome
  deriving DecidableEq

/-- Lines 131-134: a negative `--depth` is replaced by `i8::MAX` (= 127). -/
def clampDepth (d : Int) : Int :=
  if d < 0 then 127 else d

/-- Rust `main()` on a root at `location` resolving to `root`, with the given
`--depth` and `--all` arguments. -/
def mainRun (location : String) (root : Node) (cliDepth : Int) (all : Bool) : MainOutcome :=
  if isDir root then
    match lsr location root (clampDepth cliDepth) 0 all with
    | (out, .ok _) => .exit out [] true
    | (out, .error e) => .exit out [e] false
    | (out, .panic) => .panicked out
  else
    .exit [] [location ++ " is not a directory"] false

/-! ## Derived / spec-side definitions -/

/-- The `metadata().len()` bytes of an entry (0 in the error case, which the
lemmas using it exclude). -/
def metaBytes (e : Node) : Nat :=
  match metaOf e with
  | .ok b => b
  | .error _ => 0

mutual

/-- Height of a node: number of directory levels `read_dir` can descend. -/
def Node.height : Node → Nat
  | .dirOk _ _ children => 1 + heightList children
  | _ => 0
  termination_by structural n => n

/-- Maximum height over a list of nodes. -/
def heightList : List Node → Nat
  | [] => 0
  | c :: cs => max (Node.height c) (heightList cs)
  termination_by structural ns => ns

end

mutual

/-- Modelled from the spec: "the total byte count it returns equals the sum of
the sizes of all regular files reachable from that call within the permitted
depth", with depth- or hidden-excluded files excluded from the sum.  This is
the spec's reading of the aggregate, written for comparison with what `lsr`
actually returns; it is not a translation of the source. -/
def specFilesTotal (all : Bool) (node : Node) (depth : Int) : Nat :=
  match node with
  | .file _ (.ok b) => b
  | .dirOk _ _ children => if depth = -1 then 0 else specFilesList all children (depth - 1)
  | _ => 0
  termination_by structural node

/-- Sum of `specFilesTotal` over the slots that survive enumeration and the
hidden-file filter. -/
def specFilesList (all : Bool) (ns : List Node) (depth : Int) : Nat :=
  match ns with
  | [] => 0
  | c :: cs =>
    (if slotOk c && keepEntry all c then specFilesTotal all c depth else 0) +
      specFilesList all cs depth
  termination_by structural ns

end

/-- Modelled from the spec's glyph rules, in their stated order: only sibling →
plain horizontal connector at the root else closing corner; first of multiple →
opening corner at the root else mid-branch connector; last of multiple →
closing corner; otherwise mid-branch connector. -/
def specSymbol (i n d : Nat) : String :=
  if n = 1 then (if d = 0 then "─" else "╰")
  else if i = 0 then (if d = 0 then "╭" else "├")
  else if i = n - 1 then "╰"
  else "├"

/-- An entry whose processing step cannot abort the loop: metadata readable,
UTF-8 name, and its recursive call (at the given child depth/indent) does not
panic. -/
def goodEntry (path : String) (depth : Int) (indent : Nat) (all : Bool) (e : Node) : Prop :=
  (metaOf e).isOk = true ∧ (nameStr e).isSome = true ∧
    (lsr (path ++ "/" ++ displayName e) e depth indent all).2 ≠ .panic

instance (path depth indent all e) : Decidable (goodEntry path depth indent all e) := by
  unfold goodEntry; infer_instance

/-- The corresponding property of a precomputed (entry, recursive result)
pair in the loop. -/
def goodPair (p : Node × (List Line × LsrRes)) : Prop :=
  (metaOf p.1).isOk = true ∧ (nameStr p.1).isSome = true ∧ p.2.2 ≠ .panic

/-- The output `out` shows entry `e` on a line of its own at `indent`:
a directory line or a file line carrying the entry's name. -/
def rendersEntry (out : List Line) (indent : Nat) (e : Node) : Prop :=
  ∃ sym nm, nameStr e = some nm ∧
    (Line.dirLine indent sym nm ∈ out ∨ ∃ b, Line.fileLine indent sym nm b ∈ out)

/-! ## Helper lemmas -/

theorem lsrChildren_eq_map (path : String) (ns : List Node) (depth : Int) (indent : Nat)
    (all : Bool) :
    lsrChildren path ns depth indent all =
      ns.map (fun c => (c, lsr (path ++ "/" ++ displayName c) c depth indent all)) := by
  induction ns with
  | nil => rfl
  | cons c cs ih => simp [lsrChildren, ih]

/-- The pair list `lsr` folds over, for a readable directory. -/
def entryPairs (path : String) (children : List Node) (depth : Int) (indent : Nat)
    (all : Bool) : List (Node × (List Line × LsrRes)) :=
  (filteredEntries all children).map
    (fun c => (c, lsr (path ++ "/" ++ displayName c) c (depth - 1) (indent + 1) all))

theorem lsr_dirOk (path : String) (nm : Option String) (mt : Except String Nat)
    (children : List Node) (depth : Int) (indent : Nat) (all : Bool) (hd : depth ≠ -1) :
    lsr path (.dirOk nm mt children) depth indent all =
      lsrLoop indent (entryPairs path children depth indent all).length
        (entryPairs path children depth indent all) 0 0 := by
  rw [lsr, if_neg hd, lsrChildren_eq_map]
  simp only [List.filter_map]
  rfl

theorem lsr_sentinel (path : String) (node : Node) (indent : Nat) (all : Bool)
    (h : isDir node = true) : lsr path node (-1) indent all = ([], .ok 0) := by
  cases node with
  | enumFail => simp [isDir] at h
  | file n m => simp [isDir] at h
  | dirErr n m msg => rw [lsr]; simp
  | dirOk n m children => rw [lsr]; simp

theorem lsr_out_neg_one (path : String) (node : Node) (indent : Nat) (all : Bool) :
    (lsr path node (-1) indent all).1 = [] := by
  cases node with
  | enumFail => rw [lsr]
  | file n m => rw [lsr]
  | dirErr n m msg => rw [lsr]; simp
  | dirOk n m children => rw [lsr]; simp

theorem lsrLoop_res_ok (indent length : Nat) :
    ∀ (pre : List (Node × (List Line × LsrRes))) (i acc : Nat),
      (∀ p ∈ pre, goodPair p) →
      (lsrLoop indent length pre i acc).2 =
        .ok (acc + (pre.map (fun p => metaBytes p.1)).sum) := by
  intro pre
  induction pre with
  | nil => intro i acc _; simp [lsrLoop]
  | cons p rest ih =>
    obtain ⟨e, cout, cres⟩ := p
    intro i acc hg
    obtain ⟨hm, hn, hp⟩ := hg _ (List.mem_cons_self _ _)
    have hrest : ∀ q ∈ rest, goodPair q := fun q hq => hg q (List.mem_cons_of_mem _ hq)
    cases hmeta : metaOf e with
    | error m => rw [hmeta] at hm; simp [Except.isOk, Except.toBool] at hm
    | ok b =>
      cases hname : nameStr e with
      | none => rw [hname] at hn; simp at hn
      | some nm =>
        simp only [lsrLoop, hmeta, hname]
        have hsum : (List.map (fun p => metaBytes p.1) ((e, cout, cres) :: rest)).sum
            = b + (List.map (fun p => metaBytes p.1) rest).sum := by
          simp [metaBytes, hmeta]
        by_cases hdir : isDir e
        · simp only [hdir, if_true]
          cases cres with
          | panic => exact absurd rfl hp
          | error m =>
            simp only []
            rw [ih (i + 1) (acc + b) hrest, hsum, Nat.add_assoc]
          | ok t0 =>
            simp only []
            rw [ih (i + 1) (acc + b) hrest, hsum, Nat.add_assoc]
        · simp only [hdir, Bool.false_eq_true, if_false]
          rw [ih (i + 1) (acc + b) hrest, hsum, Nat.add_assoc]

/-- Where a line of the loop's output can come from: an entry's own directory
or file line at this `indent`, a caught-child-error line at `indent + 1`, or a
line printed inside a child's recursive call. -/
theorem lsrLoop_line_origin (indent length : Nat) :
    ∀ (pre : List (Node × (List Line × LsrRes))) (i acc : Nat) (l : Line),
      l ∈ (lsrLoop indent length pre i acc).1 →
      (∃ p ∈ pre, ∃ sym nm, nameStr p.1 = some nm ∧ isDir p.1 = true ∧
        l = .dirLine indent sym nm) ∨
      (∃ p ∈ pre, ∃ sym nm b, nameStr p.1 = some nm ∧ metaOf p.1 = .ok b ∧
        l = .fileLine indent sym nm b) ∨
      (∃ p ∈ pre, ∃ m, isDir p.1 = true ∧ p.2.2 = .error m ∧ l = .errLine (indent + 1) m) ∨
      (∃ p ∈ pre, l ∈ p.2.1) := by
  intro pre
  induction pre with
  | nil => intro i acc l hl; simp [lsrLoop] at hl
  | cons p rest ih =>
    obtain ⟨e, cout, cres⟩ := p
    intro i acc l hl
    have lift : ∀ P : (Node × (List Line × LsrRes)) → Prop,
        (∃ q ∈ rest, P q) → ∃ q ∈ (e, (cout, cres)) :: rest, P q := by
      rintro P ⟨q, hq, h⟩
      exact ⟨q, List.mem_cons_of_mem _ hq, h⟩
    have hmem : (e, (cout, cres)) ∈ (e, (cout, cres)) :: rest := List.mem_cons_self _ _
    cases hmeta : metaOf e with
    | error m => simp [lsrLoop, hmeta] at hl
    | ok b =>
      cases hname : nameStr e with
      | none => simp [lsrLoop, hmeta, hname] at hl
      | some nm =>
        cases hdir : isDir e with
        | false =>
          simp only [lsrLoop, hmeta, hname, hdir, Bool.false_eq_true, if_false,
            List.mem_cons] at hl
          rcases hl with rfl | hl
          · exact Or.inr (Or.inl ⟨_, hmem, _, _, _, hname, hmeta, rfl⟩)
          · rcases ih (i + 1) (acc + b) l hl with h | h | h | h
            · exact Or.inl (lift _ h)
            · exact Or.inr (Or.inl (lift _ h))
            · exact Or.inr (Or.inr (Or.inl (lift _ h)))
            · exact Or.inr (Or.inr (Or.inr (lift _ h)))
        | true =>
          cases cres with
          | panic =>
            simp only [lsrLoop, hmeta, hname, hdir, if_true, List.mem_cons] at hl
            rcases hl with rfl | hl
            · exact Or.inl ⟨_, hmem, _, _, hname, hdir, rfl⟩
            · exact Or.inr (Or.inr (Or.inr ⟨_, hmem, hl⟩))
          | error m =>
            simp only [lsrLoop, hmeta, hname, hdir, if_true, List.mem_cons,
              List.mem_append] at hl
            rcases hl with rfl | (hl | (rfl | hl))
            · exact Or.inl ⟨_, hmem, _, _, hname, hdir, rfl⟩
            · exact Or.inr (Or.inr (Or.inr ⟨_, hmem, hl⟩))
            · exact Or.inr (Or.inr (Or.inl ⟨_, hmem, m, hdir, rfl, rfl⟩))
            · rcases ih (i + 1) (acc + b) l hl with h | h | h | h
              · exact Or.inl (lift _ h)
              · exact Or.inr (Or.inl (lift _ h))
              · exact Or.inr (Or.inr (Or.inl (lift _ h)))
              · exact Or.inr (Or.inr (Or.inr (lift _ h)))
          | ok t0 =>
            simp only [lsrLoop, hmeta, hname, hdir, if_true, List.mem_cons,
              List.mem_append] at hl
            rcases hl with rfl | (hl | hl)
            · exact Or.inl ⟨_, hmem, _, _, hname, hdir, rfl⟩
            · exact Or.inr (Or.inr (Or.inr ⟨_, hmem, hl⟩))
            · rcases ih (i + 1) (acc + b) l hl with h | h | h | h
              · exact Or.inl (lift _ h)
              · exact Or.inr (Or.inl (lift _ h))
              · exact Or.inr (Or.inr (Or.inl (lift _ h)))
              · exact Or.inr (Or.inr (Or.inr (lift _ h)))

/-- When every entry of the loop is good (metadata readable, UTF-8 name, no
panicking child), the error of any directory entry's recursive call shows up
as an error line one indent level deeper. -/
theorem lsrLoop_errLine_mem (indent length : Nat) :
    ∀ (pre : List (Node × (List Line × LsrRes))) (i acc : Nat),
      (∀ p ∈ pre, goodPair p) →
      ∀ p ∈ pre, isDir p.1 = true → ∀ m, p.2.2 = .error m →
        Line.errLine (indent + 1) m ∈ (lsrLoop indent length pre i acc).1 := by
  intro pre
  induction pre with
  | nil => intro i acc _ p hp; simp at hp
  | cons q rest ih =>
    obtain ⟨e, cout, cres⟩ := q
    intro i acc hg p hp hpdir m hperr
    obtain ⟨hm, hn, hpan⟩ := hg _ (List.mem_cons_self _ _)
    have hrest : ∀ r ∈ rest, goodPair r := fun r hr => hg r (List.mem_cons_of_mem _ hr)
    cases hmeta : metaOf e with
    | error mm => rw [hmeta] at hm; simp [Except.isOk, Except.toBool] at hm
    | ok b =>
      cases hname : nameStr e with
      | none => rw [hname] at hn; simp at hn
      | some nm =>
        rcases List.mem_cons.mp hp with rfl | hp
        · -- the target entry is the head of the loop
          have hdir : isDir e = true := hpdir
          cases cres with
          | panic => exact absurd rfl hpan
          | ok t0 => simp at hperr
          | error m0 =>
            have hm0 : m0 = m := by simpa using hperr
            subst hm0
            simp [lsrLoop, hmeta, hname, hdir]
        · -- the target entry sits in the tail; the head cannot stop the loop
          have htail := ih (i + 1) (acc + b) hrest p hp hpdir m hperr
          cases hdir : isDir e with
          | false =>
            simp only [lsrLoop, hmeta, hname, hdir, Bool.false_eq_true, if_false,
              List.mem_cons]
            exact Or.inr htail
          | true =>
            cases cres with
            | panic => exact absurd rfl hpan
            | error m0 =>
              simp only [lsrLoop, hmeta, hname, hdir, if_true, List.mem_cons, List.mem_append]
              exact Or.inr (Or.inr (Or.inr htail))
            | ok t0 =>
              simp only [lsrLoop, hmeta, hname, hdir, if_true, List.mem_cons, List.mem_append]
              exact Or.inr (Or.inr htail)

/-- When every entry of the loop is good, every entry gets a line of its own
(a directory line or a file line carrying its name) in the loop's output. -/
theorem lsrLoop_renders (indent length : Nat) :
    ∀ (pre : List (Node × (List Line × LsrRes))) (i acc : Nat),
      (∀ p ∈ pre, goodPair p) →
      ∀ p ∈ pre, rendersEntry (lsrLoop indent length pre i acc).1 indent p.1 := by
  intro pre
  induction pre with
  | nil => intro i acc _ p hp; simp at hp
  | cons q rest ih =>
    obtain ⟨e, cout, cres⟩ := q
    intro i acc hg p hp
    obtain ⟨hm, hn, hpan⟩ := hg _ (List.mem_cons_self _ _)
    have hrest : ∀ r ∈ rest, goodPair r := fun r hr => hg r (List.mem_cons_of_mem _ hr)
    cases hmeta : metaOf e with
    | error mm => rw [hmeta] at hm; simp [Except.isOk, Except.toBool] at hm
    | ok b =>
      cases hname : nameStr e with
      | none => rw [hname] at hn; simp at hn
      | some nm =>
        rcases List.mem_cons.mp hp with rfl | hp
        · -- the head entry renders its own head line
          cases hdir : isDir e with
          | false =>
            refine ⟨get_symbol i length indent, nm, hname, Or.inr ⟨b, ?_⟩⟩
            simp [lsrLoop, hmeta, hname, hdir]
          | true =>
            refine ⟨get_symbol i length indent, nm, hname, Or.inl ?_⟩
            cases cres with
            | panic => exact absurd rfl hpan
            | error m0 => simp [lsrLoop, hmeta, hname, hdir]
            | ok t0 => simp [lsrLoop, hmeta, hname, hdir]
        · -- entries in the tail keep their lines: output only grows in front
          obtain ⟨sym, pnm, hpnm, hline⟩ := ih (i + 1) (acc + b) hrest p hp
          refine ⟨sym, pnm, hpnm, ?_⟩
          cases hdir : isDir e with
          | false =>
            simp only [lsrLoop, hmeta, hname, hdir, Bool.false_eq_true, if_false,
              List.mem_cons]
            rcases hline with hline | ⟨b0, hline⟩
            · exact Or.inl (Or.inr hline)
            · exact Or.inr ⟨b0, Or.inr hline⟩
          | true =>
            cases cres with
            | panic => exact absurd rfl hpan
            | error m0 =>
              simp only [lsrLoop, hmeta, hname, hdir, if_true, List.mem_cons, List.mem_append]
              rcases hline with hline | ⟨b0, hline⟩
              · exact Or.inl (Or.inr (Or.inr (Or.inr hline)))
              · exact Or.inr ⟨b0, Or.inr (Or.inr (Or.inr hline))⟩
            | ok t0 =>
              simp only [lsrLoop, hmeta, hname, hdir, if_true, List.mem_cons, List.mem_append]
              rcases hline with hline | ⟨b0, hline⟩
              · exact Or.inl (Or.inr (Or.inr hline))
              · exact Or.inr ⟨b0, Or.inr (Or.inr hline)⟩

/-- Transfer: good filtered entries give good precomputed loop pairs. -/
theorem goodPairs_of_goodEntries (path : String) (children : List Node) (depth : Int)
    (indent : Nat) (all : Bool)
    (hg : ∀ e ∈ filteredEntries all children, goodEntry path (depth - 1) (indent + 1) all e) :
    ∀ p ∈ entryPairs path children depth indent all, goodPair p := by
  intro p hp
  rw [entryPairs] at hp
  obtain ⟨e, he, rfl⟩ := List.mem_map.mp hp
  exact hg e he

theorem mem_of_mem_filteredEntries {all : Bool} {children : List Node} {e : Node}
    (h : e ∈ filteredEntries all children) : e ∈ children :=
  List.mem_of_mem_filter (List.mem_of_mem_filter h)

/-- No line of a call at depth `k - 1` is indented past `indent + k - 1`
two-space units (depth-induction form of the depth bound). -/
theorem lsr_lineIndent_le (k : Nat) :
    ∀ depth : Int, depth = (k : Int) - 1 →
      ∀ (path : String) (node : Node) (indent : Nat) (all : Bool) (l : Line),
        l ∈ (lsr path node depth indent all).1 → (lineIndent l : Int) ≤ indent + depth := by
  induction k with
  | zero =>
    intro depth hdep path node indent all l hl
    have hd : depth = -1 := by omega
    subst hd
    rw [lsr_out_neg_one] at hl
    simp at hl
  | succ n ih =>
    intro depth hdep path node indent all l hl
    have hd : depth ≠ -1 := by omega
    have hd0 : (0 : Int) ≤ depth := by omega
    cases node with
    | enumFail => rw [lsr] at hl; simp at hl
    | file nm m => rw [lsr] at hl; simp at hl
    | dirErr nm m msg => rw [lsr, if_neg hd] at hl; simp at hl
    | dirOk nm m children =>
      rw [lsr_dirOk _ _ _ _ _ _ _ hd] at hl
      rcases lsrLoop_line_origin indent _ _ 0 0 l hl with h | h | h | h
      · obtain ⟨p, hp, sym, pnm, _, _, rfl⟩ := h
        simp only [lineIndent]; omega
      · obtain ⟨p, hp, sym, pnm, b, _, _, rfl⟩ := h
        simp only [lineIndent]; omega
      · obtain ⟨p, hp, mm, hpdir, hperr, rfl⟩ := h
        rw [entryPairs] at hp
        obtain ⟨e, he, rfl⟩ := List.mem_map.mp hp
        by_cases h0 : depth = 0
        · exfalso
          rw [h0] at hperr
          have : (0 : Int) - 1 = -1 := by omega
          rw [this, lsr_sentinel _ _ _ _ hpdir] at hperr
          simp at hperr
        · simp only [lineIndent]; omega
      · obtain ⟨p, hp, hl2⟩ := h
        rw [entryPairs] at hp
        obtain ⟨e, he, rfl⟩ := List.mem_map.mp hp
        have hrec := ih (depth - 1) (by omega) _ e (indent + 1) all l hl2
        omega

theorem Node.height_dirErr (nm : Option String) (m : Except String Nat) (msg : String) :
    (Node.dirErr nm m msg).height = 0 := rfl

theorem Node.height_dirOk (nm : Option String) (m : Except String Nat) (children : List Node) :
    (Node.dirOk nm m children).height = 1 + heightList children := rfl

/-- Any node's height bounds the height of each slot below a `dirOk`. -/
theorem height_le_of_mem {c : Node} : ∀ {cs : List Node}, c ∈ cs →
    Node.height c ≤ heightList cs := by
  intro cs
  induction cs with
  | nil => intro h; simp at h
  | cons d ds ih =>
    intro h
    rcases List.mem_cons.mp h with rfl | h
    · rw [heightList]; exact Nat.le_max_left _ _
    · rw [heightList]; exact Nat.le_trans (ih h) (Nat.le_max_right _ _)

/-- Above a subtree's height, the depth argument no longer matters: the
traversal reaches every leaf ("renders the full tree"). -/
theorem lsr_stable_above_height (h : Nat) :
    ∀ node : Node, Node.height node ≤ h →
      ∀ (path : String) (d1 d2 : Int) (indent : Nat) (all : Bool),
        (Node.height node : Int) ≤ d1 → (Node.height node : Int) ≤ d2 →
        lsr path node d1 indent all = lsr path node d2 indent all := by
  induction h with
  | zero =>
    intro node hh path d1 d2 indent all h1 h2
    cases node with
    | enumFail => rw [lsr, lsr]
    | file nm m => rw [lsr, lsr]
    | dirErr nm m msg =>
      rw [Node.height_dirErr] at h1 h2
      rw [lsr, lsr, if_neg (by push_cast at h1; omega), if_neg (by push_cast at h2; omega)]
    | dirOk nm m children => rw [Node.height_dirOk] at hh; omega
  | succ n ih =>
    intro node hh path d1 d2 indent all h1 h2
    cases node with
    | enumFail => rw [lsr, lsr]
    | file nm m => rw [lsr, lsr]
    | dirErr nm m msg =>
      rw [Node.height_dirErr] at h1 h2
      rw [lsr, lsr, if_neg (by push_cast at h1; omega), if_neg (by push_cast at h2; omega)]
    | dirOk nm m children =>
      rw [Node.height_dirOk] at hh h1 h2
      push_cast at h1 h2
      have hd1 : d1 ≠ -1 := by omega
      have hd2 : d2 ≠ -1 := by omega
      rw [lsr_dirOk _ _ _ _ _ _ _ hd1, lsr_dirOk _ _ _ _ _ _ _ hd2]
      suffices hpairs : entryPairs path children d1 indent all =
          entryPairs path children d2 indent all by rw [hpairs]
      rw [entryPairs, entryPairs]
      apply List.map_congr_left
      intro c hc
      have hcm : c ∈ children := mem_of_mem_filteredEntries hc
      have hch : Node.height c ≤ heightList children := height_le_of_mem hcm
      have := ih c (by omega) (path ++ "/" ++ displayName c) (d1 - 1) (d2 - 1) (indent + 1) all
        (by omega) (by omega)
      rw [this]

theorem keepEntry_of_mem_filteredEntries {all : Bool} {children : List Node} {e : Node}
    (h : e ∈ filteredEntries all children) : keepEntry all e = true :=
  (List.mem_filter.mp h).2

theorem not_dot_of_keep_false {e : Node} {nm : String} (h : keepEntry false e = true)
    (hn : nameStr e = some nm) : starts_with_dot nm = false := by
  rw [keepEntry, hn] at h
  simpa using h

/-- With `--all` unset, no entry line of the traversal shows a name whose
first character is a dot (depth-induction form). -/
theorem lsr_no_hidden_names (k : Nat) :
    ∀ depth : Int, depth = (k : Int) - 1 →
      ∀ (path : String) (node : Node) (indent : Nat) (l : Line),
        l ∈ (lsr path node depth indent false).1 →
        ∀ s, lineEntryName l = some s → starts_with_dot s = false := by
  induction k with
  | zero =>
    intro depth hdep path node indent l hl
    have hd : depth = -1 := by omega
    subst hd
    rw [lsr_out_neg_one] at hl
    simp at hl
  | succ n ih =>
    intro depth hdep path node indent l hl s hs
    have hd : depth ≠ -1 := by omega
    cases node with
    | enumFail => rw [lsr] at hl; simp at hl
    | file nm m => rw [lsr] at hl; simp at hl
    | dirErr nm m msg => rw [lsr, if_neg hd] at hl; simp at hl
    | dirOk nm m children =>
      rw [lsr_dirOk _ _ _ _ _ _ _ hd] at hl
      rcases lsrLoop_line_origin indent _ _ 0 0 l hl with h | h | h | h
      · obtain ⟨p, hp, sym, pnm, hpname, _, rfl⟩ := h
        rw [entryPairs] at hp
        obtain ⟨e, he, rfl⟩ := List.mem_map.mp hp
        have hsp : pnm = s := by simpa [lineEntryName] using hs
        subst hsp
        exact not_dot_of_keep_false (keepEntry_of_mem_filteredEntries he) hpname
      · obtain ⟨p, hp, sym, pnm, b, hpname, _, rfl⟩ := h
        rw [entryPairs] at hp
        obtain ⟨e, he, rfl⟩ := List.mem_map.mp hp
        have hsp : pnm = s := by simpa [lineEntryName] using hs
        subst hsp
        exact not_dot_of_keep_false (keepEntry_of_mem_filteredEntries he) hpname
      · obtain ⟨p, hp, mm, _, _, rfl⟩ := h
        simp [lineEntryName] at hs
      · obtain ⟨p, hp, hl2⟩ := h
        rw [entryPairs] at hp
        obtain ⟨e, he, rfl⟩ := List.mem_map.mp hp
        exact ih (depth - 1) (by omega) _ e (indent + 1) l hl2 s hs

/-! ## Claims -/

/-- C5: for all sibling counts `n ≥ 1`, positions `0 ≤ i < n` and indents `d`,
`get_symbol` returns exactly one of four symbols, chosen by the spec's rules in
order (only sibling → plain horizontal connector at the root else closing
corner; first of multiple → opening corner at the root else mid-branch
connector; last of multiple → closing corner regardless of `d`; otherwise
mid-branch connector). -/
theorem C5_get_symbol_follows_rules (i n d : Nat) (hn : 1 ≤ n) (hi : i < n) :
    get_symbol i n d = specSymbol i n d ∧
    get_symbol i n d ∈ ["─", "╰", "├", "╭"] ∧
    (1 < n → i = n - 1 → get_symbol i n d = "╰") := by
  refine ⟨?_, ?_, ?_⟩
  · unfold get_symbol specSymbol
    by_cases h1 : n = 1
    · have h0 : i = 0 := by omega
      subst h1 h0
      by_cases hd : d = 0 <;> simp [hd]
    · by_cases h0 : i = 0
      · subst h0
        by_cases hd : d = 0 <;> simp [hd, h1]
      · have hne : ¬ (0 = n - 1) := by omega
        by_cases hl : i = n - 1 <;> simp [h0, h1, hl]
  · unfold get_symbol
    repeat' split
    all_goals simp
  · intro h1 hl
    have hne : ¬ n - 1 = 0 := by omega
    have h1' : ¬ n = 1 := by omega
    have h0 : ¬ i = 0 := by omega
    simp [get_symbol, h0, hl, hne, h1']

/-- C5 witness at `i = 1`, `n = 2`, `d = 3`. -/
theorem C5_get_symbol_follows_rules_witness :
    get_symbol 1 2 3 = specSymbol 1 2 3 ∧
    get_symbol 1 2 3 ∈ ["─", "╰", "├", "╭"] ∧
    (1 < 2 → 1 = 2 - 1 → get_symbol 1 2 3 = "╰") :=
  C5_get_symbol_follows_rules 1 2 3 (by decide) (by decide)

/-- C6: `beautify_bytes` picks its unit by the fixed 1024-power thresholds:
below 1024 an integer byte count suffixed `B`; below 1048576 a two-decimal
number suffixed `KB`; below 1073741824 a two-decimal number suffixed `MB`;
otherwise a two-decimal number suffixed `GB`; and it maps 0, 1023, 1024,
1048576, 1073741824 to "0B", "1023B", "1.00KB", "1.00MB", "1.00GB".  (It is a
total function by construction.) -/
theorem C6_beautify_bytes_thresholds :
    (∀ b : Nat, b < 1024 → beautify_bytes b = toString b ++ "B") ∧
    (∀ b : Nat, 1024 ≤ b → b < 1048576 → ∃ q f : Nat, f < 100 ∧
      beautify_bytes b = toString q ++ "." ++ pad2 f ++ "KB") ∧
    (∀ b : Nat, 1048576 ≤ b → b < 1073741824 → ∃ q f : Nat, f < 100 ∧
      beautify_bytes b = toString q ++ "." ++ pad2 f ++ "MB") ∧
    (∀ b : Nat, 1073741824 ≤ b → ∃ q f : Nat, f < 100 ∧
      beautify_bytes b = toString q ++ "." ++ pad2 f ++ "GB") ∧
    beautify_bytes 0 = "0B" ∧ beautify_bytes 1023 = "1023B" ∧
    beautify_bytes 1024 = "1.00KB" ∧ beautify_bytes 1048576 = "1.00MB" ∧
    beautify_bytes 1073741824 = "1.00GB" := by
  refine ⟨?_, ?_, ?_, ?_, by decide, by decide, by decide, by decide, by decide⟩
  · intro b hb
    rw [beautify_bytes, if_pos hb]
  · intro b hb1 hb2
    refine ⟨round2 (b * 100) 1024 / 100, round2 (b * 100) 1024 % 100,
      Nat.mod_lt _ (by norm_num), ?_⟩
    rw [beautify_bytes, if_neg (by omega), if_pos hb2]
    rfl
  · intro b hb1 hb2
    refine ⟨round2 (b * 100) 1048576 / 100, round2 (b * 100) 1048576 % 100,
      Nat.mod_lt _ (by norm_num), ?_⟩
    rw [beautify_bytes, if_neg (by omega), if_neg (by omega), if_pos hb2]
    rfl
  · intro b hb1
    refine ⟨round2 (b * 100) 1073741824 / 100, round2 (b * 100) 1073741824 % 100,
      Nat.mod_lt _ (by norm_num), ?_⟩
    rw [beautify_bytes, if_neg (by omega), if_neg (by omega), if_neg (by omega)]
    rfl

/-- C6 witness at 500, 2048, 3145728, 2147483648 (one value per unit range). -/
theorem C6_beautify_bytes_thresholds_witness :
    beautify_bytes 500 = toString (500 : Nat) ++ "B" ∧
    (∃ q f : Nat, f < 100 ∧ beautify_bytes 2048 = toString q ++ "." ++ pad2 f ++ "KB") ∧
    (∃ q f : Nat, f < 100 ∧ beautify_bytes 3145728 = toString q ++ "." ++ pad2 f ++ "MB") ∧
    (∃ q f : Nat, f < 100 ∧ beautify_bytes 2147483648 = toString q ++ "." ++ pad2 f ++ "GB") :=
  ⟨C6_beautify_bytes_thresholds.1 500 (by norm_num),
   C6_beautify_bytes_thresholds.2.1 2048 (by norm_num) (by norm_num),
   C6_beautify_bytes_thresholds.2.2.1 3145728 (by norm_num) (by norm_num),
   C6_beautify_bytes_thresholds.2.2.2.1 2147483648 (by norm_num)⟩

/-- C8: `lsr` on a path that is not a directory fails with the
"is not a directory" error carrying the path; `main` exits successfully
exactly on a top-level `Ok`, and with a failure code when the root is not a
directory or the top-level call returns an `Err` (printed to stderr). -/
theorem C8_exit_codes :
    (∀ (path : String) (node : Node) (depth : Int) (indent : Nat) (all : Bool),
        isDir node = false →
        lsr path node depth indent all = ([], .error (path ++ " is not a directory"))) ∧
    (∀ (loc : String) (root : Node) (cliDepth : Int) (all : Bool), isDir root = false →
        mainRun loc root cliDepth all = .exit [] [loc ++ " is not a directory"] false) ∧
    (∀ (loc : String) (root : Node) (cliDepth : Int) (all : Bool) (out : List Line)
        (total : Nat), isDir root = true →
        lsr loc root (clampDepth cliDepth) 0 all = (out, .ok total) →
        mainRun loc root cliDepth all = .exit out [] true) ∧
    (∀ (loc : String) (root : Node) (cliDepth : Int) (all : Bool) (out : List Line)
        (m : String), isDir root = true →
        lsr loc root (clampDepth cliDepth) 0 all = (out, .error m) →
        mainRun loc root cliDepth all = .exit out [m] false) := by
  refine ⟨?_, ?_, ?_, ?_⟩
  · intro path node depth indent all h
    cases node with
    | enumFail => rw [lsr]
    | file nm m => rw [lsr]
    | dirErr nm m msg => simp [isDir] at h
    | dirOk nm m children => simp [isDir] at h
  · intro loc root cliDepth all h
    rw [mainRun, if_neg (by simp [h])]
  · intro loc root cliDepth all out total h hlsr
    rw [mainRun, if_pos h, hlsr]
  · intro loc root cliDepth all out m h hlsr
    rw [mainRun, if_pos h, hlsr]

/-- C8 witness: a file root fails; a good root exits 0; an unreadable-root
run exits nonzero with the message on stderr. -/
theorem C8_exit_codes_witness :
    lsr "f" (.file (some "f") (.ok 3)) 7 0 false = ([], .error "f is not a directory") ∧
    mainRun "f" (.file (some "f") (.ok 3)) (-1) false =
      .exit [] ["f is not a directory"] false ∧
    mainRun "." (.dirOk (some "r") (.ok 0) [.file (some "a") (.ok 500)]) (-1) false =
      .exit [Line.fileLine 0 "─" "a" 500] [] true ∧
    mainRun "." (.dirErr (some "r") (.ok 0) "input output error") (-1) false =
      .exit [] ["input output error"] false :=
  ⟨C8_exit_codes.1 "f" (.file (some "f") (.ok 3)) 7 0 false (by decide),
   C8_exit_codes.2.1 "f" (.file (some "f") (.ok 3)) (-1) false (by decide),
   C8_exit_codes.2.2.1 "." (.dirOk (some "r") (.ok 0) [.file (some "a") (.ok 500)]) (-1) false
     [Line.fileLine 0 "─" "a" 500] 500 (by decide) (by decide),
   C8_exit_codes.2.2.2 "." (.dirErr (some "r") (.ok 0) "input output error") (-1) false
     [] "input output error" (by decide) (by decide)⟩

/-- C9: an enumeration slot whose `DirEntry` is an `Err` is dropped with no
observable effect at all (same lines, same result, siblings untouched), while
a failing `read_dir` on the directory itself is returned as an error. -/
theorem C9_enum_failures_silently_dropped :
    (∀ (path : String) (nm : Option String) (mt : Except String Nat) (pre post : List Node)
        (depth : Int) (indent : Nat) (all : Bool),
        lsr path (.dirOk nm mt (pre ++ .enumFail :: post)) depth indent all =
          lsr path (.dirOk nm mt (pre ++ post)) depth indent all) ∧
    (∀ (path : String) (nm : Option String) (mt : Except String Nat) (msg : String)
        (depth : Int) (indent : Nat) (all : Bool), depth ≠ -1 →
        lsr path (.dirErr nm mt msg) depth indent all = ([], .error msg)) := by
  constructor
  · intro path nm mt pre post depth indent all
    by_cases hd : depth = -1
    · subst hd
      rw [lsr, lsr]
      simp
    · rw [lsr_dirOk _ _ _ _ _ _ _ hd, lsr_dirOk _ _ _ _ _ _ _ hd]
      have hfe : filteredEntries all (pre ++ .enumFail :: post) =
          filteredEntries all (pre ++ post) := by
        have hslot : slotOk Node.enumFail = false := rfl
        simp [filteredEntries, List.filter_append, hslot]
      rw [entryPairs, entryPairs, hfe]
  · intro path nm mt msg depth indent all hd
    rw [lsr, if_neg hd]

/-- C9 witness: dropping a failed slot leaves the listing unchanged; a
directory whose `read_dir` fails yields `Err`. -/
theorem C9_enum_failures_silently_dropped_witness :
    lsr "." (.dirOk (some "r") (.ok 0)
        [.file (some "a") (.ok 1), .enumFail, .file (some "b") (.ok 2)]) 127 0 false =
      lsr "." (.dirOk (some "r") (.ok 0)
        [.file (some "a") (.ok 1), .file (some "b") (.ok 2)]) 127 0 false ∧
    lsr "d" (.dirErr (some "d") (.ok 0) "permission denied") 127 0 false =
      ([], .error "permission denied") :=
  ⟨C9_enum_failures_silently_dropped.1 "." (some "r") (.ok 0)
      [.file (some "a") (.ok 1)] [.file (some "b") (.ok 2)] 127 0 false,
   C9_enum_failures_silently_dropped.2 "d" (some "d") (.ok 0) "permission denied" 127 0 false
     (by decide)⟩

/-- Loop step: a failing metadata lookup aborts the whole level with `Err`
(src/bin/lsr.rs lines 92-97). -/
theorem lsrLoop_cons_meta_error (indent length : Nat) (e : Node) (cc : List Line × LsrRes)
    (rest : List (Node × (List Line × LsrRes))) (i acc : Nat) (m : String)
    (hm : metaOf e = .error m) :
    lsrLoop indent length ((e, cc) :: rest) i acc = ([], .error m) := by
  obtain ⟨cout, cres⟩ := cc
  simp [lsrLoop, hm]

/-- Loop step: a non-UTF-8 name reaches `to_str().unwrap()` and panics
(src/bin/lsr.rs line 101). -/
theorem lsrLoop_cons_name_none (indent length : Nat) (e : Node) (cc : List Line × LsrRes)
    (rest : List (Node × (List Line × LsrRes))) (i acc b : Nat)
    (hm : metaOf e = .ok b) (hn : nameStr e = none) :
    lsrLoop indent length ((e, cc) :: rest) i acc = ([], .panic) := by
  obtain ⟨cout, cres⟩ := cc
  simp [lsrLoop, hm, hn]

/-- C10: every enumerated entry has a final name component (built into the
model, see `nameStr`), so the first `unwrap` cannot panic; but the `to_str()`
`unwrap` panics on a non-UTF-8 name: such a name always survives the
hidden-file filter, the loop then panics instead of returning an error, and
the panic propagates out of `main` (no exit code). -/
theorem C10_non_utf8_name_panics :
    (∀ (all : Bool) (e : Node), nameStr e = none → keepEntry all e = true) ∧
    (∀ (indent length : Nat) (e : Node) (cc : List Line × LsrRes)
        (rest : List (Node × (List Line × LsrRes))) (i acc b : Nat),
        metaOf e = .ok b → nameStr e = none →
        lsrLoop indent length ((e, cc) :: rest) i acc = ([], .panic)) ∧
    (∀ (path : String) (nm : Option String) (mt : Except String Nat) (children : List Node)
        (depth : Int) (indent : Nat) (all : Bool) (e : Node) (rest : List Node),
        depth ≠ -1 → filteredEntries all children = e :: rest →
        (metaOf e).isOk = true → nameStr e = none →
        lsr path (.dirOk nm mt children) depth indent all = ([], .panic)) ∧
    (∀ (loc : String) (root : Node) (cliDepth : Int) (all : Bool) (out : List Line),
        isDir root = true → lsr loc root (clampDepth cliDepth) 0 all = (out, .panic) →
        mainRun loc root cliDepth all = .panicked out) := by
  refine ⟨?_, ?_, ?_, ?_⟩
  · intro all e h
    rw [keepEntry, h]
    simp
  · intro indent length e cc rest i acc b hm hn
    exact lsrLoop_cons_name_none indent length e cc rest i acc b hm hn
  · intro path nm mt children depth indent all e rest hd hfe hm hn
    cases hmeta : metaOf e with
    | error m => rw [hmeta] at hm; simp [Except.isOk, Except.toBool] at hm
    | ok b =>
      rw [lsr_dirOk _ _ _ _ _ _ _ hd, entryPairs, hfe, List.map_cons]
      exact lsrLoop_cons_name_none _ _ _ _ _ _ _ b hmeta hn
  · intro loc root cliDepth all out h hlsr
    rw [mainRun, if_pos h, hlsr]

/-- C10 witness: a directory containing an entry with a non-UTF-8 name
panics (no error result) once the entry is reached; the entry passes the
filter even with `--all` unset. -/
theorem C10_non_utf8_name_panics_witness :
    keepEntry false (.file none (.ok 5)) = true ∧
    lsr "." (.dirOk (some "r") (.ok 0) [.file none (.ok 5), .file (some "z") (.ok 6)])
        127 0 false = ([], .panic) ∧
    mainRun "." (.dirOk (some "r") (.ok 0) [.file none (.ok 5), .file (some "z") (.ok 6)])
        (-1) false = .panicked [] :=
  ⟨C10_non_utf8_name_panics.1 false (.file none (.ok 5)) (by decide),
   C10_non_utf8_name_panics.2.2.1 "." (some "r") (.ok 0)
     [.file none (.ok 5), .file (some "z") (.ok 6)] 127 0 false
     (.file none (.ok 5)) [.file (some "z") (.ok 6)]
     (by decide) rfl (by decide) rfl,
   C10_non_utf8_name_panics.2.2.2 "." (.dirOk (some "r") (.ok 0)
       [.file none (.ok 5), .file (some "z") (.ok 6)]) (-1) false []
     (by decide) (by decide)⟩

/-- C2: in a directory whose entries all process cleanly (readable metadata,
UTF-8 names, no panicking child), a failing recursive call into a child
directory is caught in this very frame: the parent still returns `Ok`
(so the failure is never propagated, not even one more level), the child's
error message appears as an error line one indent level deeper than the
entry, and that line renders as two-spaces-per-level indentation followed by
the closing-corner glyph and the message. -/
theorem C2_child_error_caught_in_parent (path : String) (nm : Option String)
    (mt : Except String Nat) (children : List Node) (depth : Int) (indent : Nat) (all : Bool)
    (hd : depth ≠ -1)
    (hg : ∀ e ∈ filteredEntries all children, goodEntry path (depth - 1) (indent + 1) all e) :
    (∃ total : Nat, (lsr path (.dirOk nm mt children) depth indent all).2 = .ok total) ∧
    (∀ e ∈ filteredEntries all children, isDir e = true → ∀ m : String,
        (lsr (path ++ "/" ++ displayName e) e (depth - 1) (indent + 1) all).2 = .error m →
        Line.errLine (indent + 1) m ∈ (lsr path (.dirOk nm mt children) depth indent all).1) ∧
    (∀ (ind : Nat) (m : String),
        (Line.errLine ind m).render = spaces (ind * 2) ++ "╰ " ++ m) := by
  have hgp := goodPairs_of_goodEntries path children depth indent all hg
  refine ⟨?_, ?_, fun ind m => rfl⟩
  · rw [lsr_dirOk _ _ _ _ _ _ _ hd]
    exact ⟨_, lsrLoop_res_ok _ _ _ 0 0 hgp⟩
  · intro e he hde m herr
    rw [lsr_dirOk _ _ _ _ _ _ _ hd]
    exact lsrLoop_errLine_mem _ _ _ 0 0 hgp _ (List.mem_map.mpr ⟨e, he, rfl⟩) hde m herr

/-- C2 witness: a readable file plus an unreadable subdirectory — the parent
returns `Ok`, and the error line sits one level deeper. -/
theorem C2_child_error_caught_in_parent_witness :
    (∃ total : Nat, (lsr "." (.dirOk (some "r") (.ok 10)
        [.file (some "a") (.ok 100), .dirErr (some "locked") (.ok 4096) "permission denied"])
        127 0 false).2 = .ok total) ∧
    Line.errLine 1 "permission denied" ∈ (lsr "." (.dirOk (some "r") (.ok 10)
        [.file (some "a") (.ok 100), .dirErr (some "locked") (.ok 4096) "permission denied"])
        127 0 false).1 ∧
    (Line.errLine 1 "permission denied").render =
      spaces 2 ++ "╰ " ++ "permission denied" := by
  have h := C2_child_error_caught_in_parent "." (some "r") (.ok 10)
    [.file (some "a") (.ok 100), .dirErr (some "locked") (.ok 4096) "permission denied"]
    127 0 false (by decide) (by decide)
  exact ⟨h.1,
    h.2.1 (.dirErr (some "locked") (.ok 4096) "permission denied")
      (List.Mem.tail _ (List.Mem.head _))
      (by decide) "permission denied" (by decide),
    h.2.2 1 "permission denied"⟩

/-- C1 counterexample: on a root holding a 500-byte file and a subdirectory
(whose own metadata size is 4096) containing a 2048-byte file, the traversal
returns 4596 — the direct children's metadata sizes, directories included —
while the sum of the sizes of all regular files reachable within the depth
(the spec's reading, `specFilesTotal`) is 2548. -/
theorem C1_total_differs_from_reachable_file_sum :
    (lsr "." (.dirOk (some "root") (.ok 0)
        [.file (some "a") (.ok 500),
         .dirOk (some "sub") (.ok 4096) [.file (some "b") (.ok 2048)]]) 127 0 false).2 =
      .ok 4596 ∧
    specFilesTotal false (.dirOk (some "root") (.ok 0)
        [.file (some "a") (.ok 500),
         .dirOk (some "sub") (.ok 4096) [.file (some "b") (.ok 2048)]]) 127 = 2548 ∧
    (4596 : Nat) ≠ 2548 :=
  ⟨by decide, by decide, by decide⟩

/-- C1 amended: for a readable directory whose filtered entries all process
cleanly, the returned total is the sum of the `metadata().len()` values of
the direct filtered children only — subdirectories contribute their own
metadata size, and the totals of recursive calls are discarded. -/
theorem C1_total_is_direct_children_meta_sum (path : String) (nm : Option String)
    (mt : Except String Nat) (children : List Node) (depth : Int) (indent : Nat) (all : Bool)
    (hd : depth ≠ -1)
    (hg : ∀ e ∈ filteredEntries all children, goodEntry path (depth - 1) (indent + 1) all e) :
    (lsr path (.dirOk nm mt children) depth indent all).2 =
      .ok (((filteredEntries all children).map metaBytes).sum) := by
  have hgp := goodPairs_of_goodEntries path children depth indent all hg
  rw [lsr_dirOk _ _ _ _ _ _ _ hd, lsrLoop_res_ok _ _ _ 0 0 hgp]
  congr 1
  rw [entryPairs, List.map_map, Nat.zero_add]
  rfl

/-- C1 amended witness, on the counterexample tree: the total is
500 + 4096. -/
theorem C1_total_is_direct_children_meta_sum_witness :
    (lsr "." (.dirOk (some "root") (.ok 0)
        [.file (some "a") (.ok 500),
         .dirOk (some "sub") (.ok 4096) [.file (some "b") (.ok 2048)]]) 127 0 false).2 =
      .ok (((filteredEntries false
        [.file (some "a") (.ok 500),
         .dirOk (some "sub") (.ok 4096) [.file (some "b") (.ok 2048)]]).map metaBytes).sum) :=
  C1_total_is_direct_children_meta_sum "." (some "root") (.ok 0)
    [.file (some "a") (.ok 500),
     .dirOk (some "sub") (.ok 4096) [.file (some "b") (.ok 2048)]]
    127 0 false (by decide) (by decide)

/-- With `--all` set the hidden-file filter keeps everything: only the
`is_ok` filter remains. -/
theorem filteredEntries_true (children : List Node) :
    filteredEntries true children = children.filter slotOk := by
  have hk : ∀ e, keepEntry true e = true := by
    intro e
    rw [keepEntry]
    cases nameStr e <;> simp
  rw [filteredEntries]
  induction children.filter slotOk with
  | nil => rfl
  | cons c cs ih => rw [List.filter_cons_of_pos (hk c), ih]

theorem clampDepth_ne_neg_one (d : Int) : clampDepth d ≠ -1 := by
  rw [clampDepth]
  split <;> omega

/-- C3 counterexample: a perfectly valid root directory with one unreadable
file among its direct children — the run prints the first entry, then aborts
the rest of the listing and exits with a failure code, even though the root
path is a directory. -/
theorem C3_single_bad_file_aborts_listing :
    isDir (.dirOk (some "root") (.ok 0)
      [.file (some "a") (.ok 100), .file (some "bad") (.error "permission denied"),
       .file (some "c") (.ok 7)]) = true ∧
    mainRun "." (.dirOk (some "root") (.ok 0)
      [.file (some "a") (.ok 100), .file (some "bad") (.error "permission denied"),
       .file (some "c") (.ok 7)]) (-1) false =
      .exit [Line.fileLine 0 "╭" "a" 100] ["permission denied"] false :=
  ⟨by decide, by decide⟩

/-- C3 amended: failures at least one level below the root's own loop are
contained (a root whose direct filtered entries all process cleanly exits
successfully no matter what happens inside its subdirectories); but a
metadata failure on a direct child of the root aborts the remaining
top-level listing and exits nonzero, and a non-directory root exits nonzero
with no stdout output. -/
theorem C3_abort_conditions :
    (∀ (loc : String) (root : Node) (cliDepth : Int) (all : Bool), isDir root = false →
        mainRun loc root cliDepth all = .exit [] [loc ++ " is not a directory"] false) ∧
    (∀ (loc : String) (nm : Option String) (mt : Except String Nat) (children : List Node)
        (cliDepth : Int) (all : Bool),
        (∀ e ∈ filteredEntries all children,
          goodEntry loc (clampDepth cliDepth - 1) 1 all e) →
        mainRun loc (.dirOk nm mt children) cliDepth all =
          .exit (lsr loc (.dirOk nm mt children) (clampDepth cliDepth) 0 all).1 [] true) ∧
    (∀ (loc : String) (nm : Option String) (mt : Except String Nat) (children : List Node)
        (cliDepth : Int) (all : Bool) (e : Node) (rest : List Node) (m : String),
        filteredEntries all children = e :: rest → metaOf e = .error m →
        mainRun loc (.dirOk nm mt children) cliDepth all = .exit [] [m] false) := by
  refine ⟨?_, ?_, ?_⟩
  · intro loc root cliDepth all h
    rw [mainRun, if_neg (by simp [h])]
  · intro loc nm mt children cliDepth all hg
    have hd := clampDepth_ne_neg_one cliDepth
    have h2 : (lsr loc (.dirOk nm mt children) (clampDepth cliDepth) 0 all).2 =
        .ok (0 + ((entryPairs loc children (clampDepth cliDepth) 0 all).map
          (fun p => metaBytes p.1)).sum) := by
      rw [lsr_dirOk _ _ _ _ _ _ _ hd]
      exact lsrLoop_res_ok _ _ _ 0 0 (goodPairs_of_goodEntries _ _ _ _ _ hg)
    rcases hl : lsr loc (.dirOk nm mt children) (clampDepth cliDepth) 0 all with ⟨out, res⟩
    rw [hl] at h2
    simp only [] at h2
    rw [mainRun, if_pos (show isDir (Node.dirOk nm mt children) = true from rfl), hl, h2]
  · intro loc nm mt children cliDepth all e rest m hfe hm
    have hd := clampDepth_ne_neg_one cliDepth
    have hlsr : lsr loc (.dirOk nm mt children) (clampDepth cliDepth) 0 all =
        ([], .error m) := by
      rw [lsr_dirOk _ _ _ _ _ _ _ hd, entryPairs, hfe, List.map_cons]
      exact lsrLoop_cons_meta_error _ _ _ _ _ _ _ m hm
    rw [mainRun, if_pos (show isDir (Node.dirOk nm mt children) = true from rfl), hlsr]

/-- C3 amended witness: non-directory root; root with a failing subdirectory
still exits 0; root with a metadata-failing direct child exits nonzero. -/
theorem C3_abort_conditions_witness :
    mainRun "f" (.file (some "f") (.ok 3)) (-1) false =
      .exit [] ["f is not a directory"] false ∧
    mainRun "." (.dirOk (some "r") (.ok 10)
        [.file (some "a") (.ok 100), .dirErr (some "locked") (.ok 4096) "permission denied"])
        (-1) false =
      .exit (lsr "." (.dirOk (some "r") (.ok 10)
        [.file (some "a") (.ok 100), .dirErr (some "locked") (.ok 4096) "permission denied"])
        (clampDepth (-1)) 0 false).1 [] true ∧
    mainRun "." (.dirOk (some "r") (.ok 0) [.file (some "bad") (.error "unreadable")])
        (-1) false = .exit [] ["unreadable"] false :=
  ⟨C3_abort_conditions.1 "f" (.file (some "f") (.ok 3)) (-1) false (by decide),
   C3_abort_conditions.2.1 "." (some "r") (.ok 10)
     [.file (some "a") (.ok 100), .dirErr (some "locked") (.ok 4096) "permission denied"]
     (-1) false (by decide),
   C3_abort_conditions.2.2 "." (some "r") (.ok 0) [.file (some "bad") (.error "unreadable")]
     (-1) false (.file (some "bad") (.error "unreadable")) [] "unreadable" rfl rfl⟩

/-- C4: the `depth == -1` sentinel returns `Ok(0)` at once, without reading
the directory (in particular even when reading it would fail); a call at
depth `k ≥ 0` never prints a line indented more than `k` levels past its own
indent; a negative `--depth` behaves exactly like the clamped `i8::MAX`
(127); and any depth at least the subtree's height — 127 included — renders
the full tree down to its deepest leaf (the output no longer depends on the
depth). -/
theorem C4_depth_bound :
    (∀ (path : String) (node : Node) (indent : Nat) (all : Bool), isDir node = true →
        lsr path node (-1) indent all = ([], .ok 0)) ∧
    (∀ (path : String) (node : Node) (depth : Int) (indent : Nat) (all : Bool) (l : Line),
        0 ≤ depth → l ∈ (lsr path node depth indent all).1 →
        (lineIndent l : Int) ≤ indent + depth) ∧
    (∀ (loc : String) (root : Node) (cliDepth : Int) (all : Bool), cliDepth < 0 →
        mainRun loc root cliDepth all = mainRun loc root 127 all) ∧
    (∀ (path : String) (node : Node) (d1 d2 : Int) (indent : Nat) (all : Bool),
        (Node.height node : Int) ≤ d1 → (Node.height node : Int) ≤ d2 →
        lsr path node d1 indent all = lsr path node d2 indent all) := by
  refine ⟨lsr_sentinel, ?_, ?_, ?_⟩
  · intro path node depth indent all l h0 hl
    exact lsr_lineIndent_le (depth + 1).toNat depth (by omega) path node indent all l hl
  · intro loc root cliDepth all h
    have h1 : clampDepth cliDepth = 127 := by rw [clampDepth, if_pos h]
    have h2 : clampDepth 127 = 127 := by rw [clampDepth]; norm_num
    rw [mainRun, mainRun, h1, h2]
  · intro path node d1 d2 indent all h1 h2
    exact lsr_stable_above_height (Node.height node) node (Nat.le_refl _) path d1 d2 indent
      all h1 h2

/-- C4 witness: sentinel on an unreadable directory; indent bound, `--depth`
clamp and depth-stability on a two-level tree. -/
theorem C4_depth_bound_witness :
    lsr "locked" (.dirErr (some "locked") (.ok 0) "permission denied") (-1) 2 true =
      ([], .ok 0) ∧
    (lineIndent (Line.fileLine 1 "╰" "b" 2048) : Int) ≤ 0 + 127 ∧
    mainRun "." (.dirOk (some "root") (.ok 0)
      [.file (some "a") (.ok 500),
       .dirOk (some "sub") (.ok 4096) [.file (some "b") (.ok 2048)]]) (-3) false =
      mainRun "." (.dirOk (some "root") (.ok 0)
        [.file (some "a") (.ok 500),
         .dirOk (some "sub") (.ok 4096) [.file (some "b") (.ok 2048)]]) 127 false ∧
    lsr "." (.dirOk (some "root") (.ok 0)
      [.file (some "a") (.ok 500),
       .dirOk (some "sub") (.ok 4096) [.file (some "b") (.ok 2048)]]) 3 0 false =
      lsr "." (.dirOk (some "root") (.ok 0)
        [.file (some "a") (.ok 500),
         .dirOk (some "sub") (.ok 4096) [.file (some "b") (.ok 2048)]]) 50 0 false :=
  ⟨C4_depth_bound.1 "locked" (.dirErr (some "locked") (.ok 0) "permission denied") 2 true
     (by decide),
   C4_depth_bound.2.1 "." (.dirOk (some "root") (.ok 0)
       [.file (some "a") (.ok 500),
        .dirOk (some "sub") (.ok 4096) [.file (some "b") (.ok 2048)]]) 127 0 false
     (Line.fileLine 1 "╰" "b" 2048) (by decide) (by decide),
   C4_depth_bound.2.2.1 "." (.dirOk (some "root") (.ok 0)
       [.file (some "a") (.ok 500),
        .dirOk (some "sub") (.ok 4096) [.file (some "b") (.ok 2048)]]) (-3) false (by decide),
   C4_depth_bound.2.2.2 "." (.dirOk (some "root") (.ok 0)
       [.file (some "a") (.ok 500),
        .dirOk (some "sub") (.ok 4096) [.file (some "b") (.ok 2048)]]) 3 50 0 false
     (by decide) (by decide)⟩

/-- C7: with `--all` unset no rendered entry line shows a name starting with
a dot, at any recursion level; with `--all` set the hidden-file filter keeps
every slot (only `Err` slots are dropped), and in a cleanly-processing
directory every such entry indeed gets a rendered line of its own. -/
theorem C7_hidden_filter :
    (∀ (path : String) (node : Node) (depth : Int) (indent : Nat) (l : Line),
        -1 ≤ depth → l ∈ (lsr path node depth indent false).1 →
        ∀ s, lineEntryName l = some s → starts_with_dot s = false) ∧
    (∀ children : List Node, filteredEntries true children = children.filter slotOk) ∧
    (∀ (path : String) (nm : Option String) (mt : Except String Nat) (children : List Node)
        (depth : Int) (indent : Nat), depth ≠ -1 →
        (∀ e ∈ filteredEntries true children, goodEntry path (depth - 1) (indent + 1) true e) →
        ∀ e ∈ children.filter slotOk,
          rendersEntry (lsr path (.dirOk nm mt children) depth indent true).1 indent e) := by
  refine ⟨?_, filteredEntries_true, ?_⟩
  · intro path node depth indent l hdep hl s hs
    exact lsr_no_hidden_names (depth + 1).toNat depth (by omega) path node indent l hl s hs
  · intro path nm mt children depth indent hd hg e he
    rw [lsr_dirOk _ _ _ _ _ _ _ hd]
    refine lsrLoop_renders _ _ _ 0 0 (goodPairs_of_goodEntries _ _ _ _ _ hg) _
      (List.mem_map.mpr ⟨e, ?_, rfl⟩)
    rw [filteredEntries_true]
    exact he

/-- C7 witness: a dot-named file is dropped without `--all` (the remaining
entry's rendered name does not start with a dot) and kept with `--all`
(it renders a line of its own). -/
theorem C7_hidden_filter_witness :
    starts_with_dot "vis" = false ∧
    filteredEntries true [Node.file (some ".hidden") (.ok 5), Node.file (some "vis") (.ok 6)] =
      [Node.file (some ".hidden") (.ok 5), Node.file (some "vis") (.ok 6)].filter slotOk ∧
    rendersEntry (lsr "." (.dirOk (some "r") (.ok 0)
        [.file (some ".hidden") (.ok 5)]) 127 0 true).1 0
      (.file (some ".hidden") (.ok 5)) :=
  ⟨C7_hidden_filter.1 "." (.dirOk (some "r") (.ok 0)
      [.file (some ".hidden") (.ok 5), .file (some "vis") (.ok 6)]) 127 0
      (Line.fileLine 0 "─" "vis" 6) (by decide) (by decide) "vis" (by decide),
   C7_hidden_filter.2.1 [Node.file (some ".hidden") (.ok 5), Node.file (some "vis") (.ok 6)],
   C7_hidden_filter.2.2 "." (some "r") (.ok 0) [.file (some ".hidden") (.ok 5)] 127 0
     (by decide) (by decide) (.file (some ".hidden") (.ok 5)) (List.Mem.head _)⟩
